import Mathlib

/-!
Shallow embedding of the interaction-orchestration core of the
minsweeper-native-client repository (src/src/minsweeper/mod.rs,
src/src/minsweeper/cell.rs), together with proofs of the frozen claims
about its specification.

The external engine crate (minsweeper_rs) is not part of the repository;
its data model (CellState, CellType, GameStatus, BoardSize::neighbours)
is modelled from the spec where needed and marked as such.
-/

set_option autoImplicit false

namespace MinsweeperClient

/-- A board coordinate, `minsweeper_rs::board::Point = (usize, usize)`. -/
abbrev Point := Nat × Nat

/-- Modelled from the spec: per-cell state as reported by the engine
snapshot (`minsweeper_rs::CellState`): unrevealed-and-unmarked, revealed,
or flagged. Variants taken from the pattern matches in src/src/texture/mod.rs. -/
inductive CellState where
  | unknown
  | revealed
  | flagged
deriving DecidableEq, Repr

/-- Modelled from the spec: per-cell type as reported by the engine
snapshot (`minsweeper_rs::CellType`): a revealed safe cell carrying its
neighbour-mine number, a mine, or a still-hidden cell. Variants taken from
the pattern matches in src/src/texture/mod.rs. -/
inductive CellType where
  | safe (n : Nat)
  | mine
  | unknown
deriving DecidableEq, Repr

/-- Modelled from the spec: game status reported by the engine
(`minsweeper_rs::GameStatus`); variants from src/src/texture/mod.rs. -/
inductive GameStatus where
  | never
  | playing
  | won
  | lost
deriving DecidableEq, Repr

/-- Per-cell snapshot entry `{ cell_state, cell_type }` as read from
`game.gamestate().board[point]`. -/
structure CellInfo where
  cell_state : CellState
  cell_type : CellType
deriving DecidableEq, Repr

/-- A board snapshot: per-cell state and type, indexed by coordinate. -/
abbrev Board := Point → CellInfo

/-- Board geometry (`minsweeper_rs::board::BoardSize`). -/
structure BoardSize where
  width : Nat
  height : Nat
deriving DecidableEq, Repr

/-- Whether two coordinates are within one step of each other on an axis. -/
def axisAdjacent (a b : Nat) : Bool :=
  decide (a ≤ b + 1) && decide (b ≤ a + 1)

/-- Every coordinate of the board, column by column (x outer, y inner). -/
def BoardSize.points (size : BoardSize) : List Point :=
  (List.range size.width).flatMap fun x =>
    (List.range size.height).map fun y => (x, y)

/-- Modelled from the spec: `BoardSize::neighbours(point)` of minsweeper_rs,
the full set of a cell's geometric neighbours — the up-to-8 cells adjacent
to `p` inside the board, excluding `p` itself. -/
def BoardSize.neighbours (size : BoardSize) (p : Point) : List Point :=
  size.points.filter fun q =>
    decide (q ≠ p) && axisAdjacent q.1 p.1 && axisAdjacent q.2 p.2

/-- A call issued to the engine by an operation body, in issue order. -/
inductive EngineCall where
  | toggleFlag (p : Point)
  | reveal (p : Point)
deriving DecidableEq, Repr

/-- Whether a snapshot entry has `cell_type == CellType::Unknown`
(the cell is still unrevealed, flagged or not). -/
def typeUnknown (ci : CellInfo) : Bool :=
  match ci.cell_type with
  | CellType.unknown => true
  | _ => false

/-- Whether a snapshot entry has `cell_state == CellState::Unknown`
(the cell is unrevealed and not flagged). -/
def stateUnknown (ci : CellInfo) : Bool :=
  match ci.cell_state with
  | CellState.unknown => true
  | _ => false

/-- The flag-chord guard of the free function `left_click` in
src/src/minsweeper/mod.rs lines 491-496: the target's type is `Safe(n)`
and `n` equals the number of neighbours whose `cell_type` is `Unknown`. -/
def flagChordApplies (size : BoardSize) (board : Board) (p : Point) : Bool :=
  match (board p).cell_type with
  | CellType.safe n =>
      decide (((size.neighbours p).filter fun q => typeUnknown (board q)).length = n)
  | _ => false

/-- The sequence of engine calls issued by the free function `left_click`
(src/src/minsweeper/mod.rs lines 489-504): when flag-chord is enabled and
the guard holds, one `right_click` (flag toggle) per neighbour whose
`cell_state` is `Unknown`, in neighbour order, then the single
`game.left_click(point)` reveal/chord call. -/
def leftClickCalls (size : BoardSize) (board : Board) (p : Point)
    (flag_chord : Bool) : List EngineCall :=
  (if flag_chord && flagChordApplies size board p then
    ((size.neighbours p).filter fun q => stateUnknown (board q)).map EngineCall.toggleFlag
  else []) ++ [EngineCall.reveal p]

/-- The list of cells whose reveal counters `MinsweeperGame::left_click`
acquires (`revealings`, src/src/minsweeper/mod.rs lines 139-145): the
neighbours of `p` when the snapshot type of `p` is `Safe(_)`, else `p`
alone. -/
def revealSet (size : BoardSize) (board : Board) (p : Point) : List Point :=
  match (board p).cell_type with
  | CellType.safe _ => size.neighbours p
  | _ => [p]

/-- Occurrence count of an element in a list. -/
def countL {α : Type} [DecidableEq α] (a : α) : List α → Nat
  | [] => 0
  | x :: xs => (if x = a then 1 else 0) + countL a xs

theorem countL_append {α : Type} [DecidableEq α] (a : α) (l₁ l₂ : List α) :
    countL a (l₁ ++ l₂) = countL a l₁ + countL a l₂ := by
  induction l₁ with
  | nil => simp [countL]
  | cons x xs ih => simp [countL, ih]; omega

theorem countL_eq_zero_of_not_mem {α : Type} [DecidableEq α] {a : α} {l : List α}
    (h : a ∉ l) : countL a l = 0 := by
  induction l with
  | nil => rfl
  | cons x xs ih =>
      simp only [List.mem_cons, not_or] at h
      simp [countL, ih h.2, Ne.symm h.1]

theorem countL_pos_of_mem {α : Type} [DecidableEq α] {a : α} {l : List α}
    (h : a ∈ l) : 0 < countL a l := by
  induction l with
  | nil => cases h
  | cons x xs ih =>
      rcases List.mem_cons.mp h with h | h
      · simp [countL, h.symm]
      · have := ih h
        simp [countL]
        omega

theorem countL_filter_le {α : Type} [DecidableEq α] (a : α) (pred : α → Bool)
    (l : List α) : countL a (l.filter pred) ≤ countL a l := by
  induction l with
  | nil => simp [countL]
  | cons x xs ih =>
      by_cases hx : pred x = true
      · simp [List.filter_cons, hx, countL]
        omega
      · simp only [List.filter_cons, Bool.not_eq_true] at *
        simp [hx, countL]
        omega

theorem countL_range (b h : Nat) : countL b (List.range h) = if b < h then 1 else 0 := by
  induction h with
  | zero => simp [countL]
  | succ h ih =>
      rw [List.range_succ, countL_append, ih]
      simp only [countL]
      split_ifs <;> omega

theorem countL_map_pair (x a b : Nat) (ys : List Nat) :
    countL (a, b) (ys.map fun y => (x, y)) = if x = a then countL b ys else 0 := by
  induction ys with
  | nil => simp [countL]
  | cons y ys ih =>
      simp only [List.map_cons, countL, ih]
      by_cases hx : x = a
      · subst hx
        by_cases hy : y = b <;> simp [hy, Prod.ext_iff]
      · simp [Prod.ext_iff, hx]

theorem countL_points (w h a b : Nat) :
    countL (a, b) (BoardSize.points ⟨w, h⟩) =
      if a < w ∧ b < h then 1 else 0 := by
  induction w with
  | zero => simp [BoardSize.points, countL]
  | succ w ih =>
      have expand : BoardSize.points ⟨w + 1, h⟩ =
          BoardSize.points ⟨w, h⟩ ++ ((List.range h).map fun y => (w, y)) := by
        simp [BoardSize.points, List.range_succ]
      rw [expand, countL_append, ih, countL_map_pair, countL_range]
      split_ifs <;> omega

theorem countL_points_le_one (size : BoardSize) (c : Point) :
    countL c size.points ≤ 1 := by
  obtain ⟨w, h⟩ := size
  obtain ⟨a, b⟩ := c
  rw [countL_points]
  split <;> omega

theorem countL_neighbours_le_one (size : BoardSize) (p c : Point) :
    countL c (size.neighbours p) ≤ 1 :=
  le_trans (countL_filter_le c _ size.points) (countL_points_le_one size c)

theorem not_self_mem_neighbours (size : BoardSize) (p : Point) :
    p ∉ size.neighbours p := by
  intro h
  rw [BoardSize.neighbours, List.mem_filter] at h
  simp at h

theorem countL_revealSet (size : BoardSize) (board : Board) (p c : Point)
    (h : c ∈ revealSet size board p) : countL c (revealSet size board p) = 1 := by
  have hle : countL c (revealSet size board p) ≤ 1 := by
    rw [revealSet]
    split
    · exact countL_neighbours_le_one size p c
    · simp only [countL]
      split_ifs <;> omega
  have hpos := countL_pos_of_mem h
  omega

/-- Per-cell interaction state (`cell::Cell` in src/src/minsweeper/cell.rs):
`hovering`, `pressed`, `force` flags and the `revealing` counter
(an `AtomicI32`; the trace invariant below keeps it within small
non-negative values, far from any wrap-around). -/
structure Cell where
  hovering : Bool
  pressed : Bool
  force : Bool
  revealing : Int
deriving DecidableEq, Repr

/-- `Cell::is_down`: `(pressed && hovering) || revealing > 0`. -/
def Cell.is_down (c : Cell) : Bool :=
  (c.pressed && c.hovering) || decide (0 < c.revealing)

/-- `Cell::is_armed`: `is_down() || force`. -/
def Cell.is_armed (c : Cell) : Bool :=
  c.is_down || c.force

/-- The mouse buttons distinguished by the gesture handlers. -/
inductive MouseButton where
  | left
  | right
  | middle
deriving DecidableEq, Repr

/-- The per-cell gesture messages (`cell::Message`). -/
inductive CellMsg where
  | press (b : MouseButton)
  | release (b : MouseButton)
  | selfPress (b : MouseButton)
  | selfRelease (b : MouseButton)
  | forceArmed (v : Bool)
  | revealing (v : Bool)
  | enter
  | exit
deriving DecidableEq, Repr

/-- The session toggles read by the gesture handlers. -/
structure Config where
  flag_chord : Bool
  hover_chord : Bool
deriving DecidableEq, Repr

/-- The grid of per-cell interaction states. -/
abbrev Cells := Point → Cell

/-- Update the interaction state of one cell, leaving all others as-is. -/
def setCell (cells : Cells) (p : Point) (f : Cell → Cell) : Cells :=
  fun q => if q = p then f (cells q) else cells q

/-- Increment (`d = 1`, the `fetch_add` loop before spawning) or decrement
(`d = -1`, the `fetch_sub` loop in the completion handler) the reveal
counter of every cell in `rs`. -/
def bumpRevealings (cells : Cells) (rs : List Point) (d : Int) : Cells :=
  rs.foldl (fun cs q => setCell cs q fun c => { c with revealing := c.revealing + d }) cells

/-- Set the `force` flag of every cell in `ns` to `v` — the
`ForceArmed` fan-out of `update_cell` (the recursive call with
`cell::Message::ForceArmed(down)` only sets the flag and returns). -/
def propagateForce (cells : Cells) (ns : List Point) (v : Bool) : Cells :=
  ns.foldl (fun cs q => setCell cs q fun c => { c with force := v }) cells

/-- The kind of spawned asynchronous operation body. -/
inductive OpCall where
  | revealTask (p : Point) (flag_chord : Bool)
  | flagTask (p : Point)
deriving DecidableEq, Repr

/-- A launched cancellable operation: the reveal counters it acquired
(to be released by its completion handler) and its body. -/
structure SpawnedOp where
  acquired : List Point
  call : OpCall
deriving DecidableEq, Repr

/-- `MinsweeperGame::left_click` (src/src/minsweeper/mod.rs lines 137-191)
as far as cell state is concerned: compute the reveal set from the board
snapshot, increment each of its counters, and spawn the registered
reveal/chord operation. (Registry and autoplay chaining are modelled
separately.) -/
def leftClickM (cfg : Config) (size : BoardSize) (board : Board)
    (cells : Cells) (p : Point) : Cells × Option SpawnedOp :=
  let rs := revealSet size board p
  (bumpRevealings cells rs 1, some ⟨rs, OpCall.revealTask p cfg.flag_chord⟩)

/-- The outer guard of the force-propagation block of `update_cell`
(src/src/minsweeper/mod.rs line 442). -/
def propagationMsg : CellMsg → Bool
  | CellMsg.press _ | CellMsg.release _ | CellMsg.selfPress _
  | CellMsg.selfRelease _ | CellMsg.enter | CellMsg.exit => true
  | _ => false

/-- The inner message test of the force-propagation block
(src/src/minsweeper/mod.rs line 444). -/
def pressLikeMsg : CellMsg → Bool
  | CellMsg.press _ | CellMsg.release _ | CellMsg.selfPress _
  | CellMsg.selfRelease _ => true
  | _ => false

/-- Whether a snapshot entry's type matches `CellType::Safe(_)`. -/
def typeSafe (ci : CellInfo) : Bool :=
  match ci.cell_type with
  | CellType.safe _ => true
  | _ => false

/-- The force-propagation block at the end of `update_cell`
(src/src/minsweeper/mod.rs lines 442-450): for the six pointer messages,
if the (already updated) cell is pressed or the message is a press/release
and the cell's snapshot type is `Safe(_)`, set `force := is_down` on every
neighbour. -/
def applyPropagation (size : BoardSize) (board : Board) (cells : Cells)
    (p : Point) (m : CellMsg) : Cells :=
  if propagationMsg m then
    let cell := cells p
    let down := cell.is_down
    if (cell.pressed || pressLikeMsg m) && typeSafe (board p) then
      propagateForce cells (size.neighbours p) down
    else cells
  else cells

/-- `MinsweeperGame::update_cell` (src/src/minsweeper/mod.rs lines
401-452): the per-message mutation of the cell's flags, the early returns
that spawn `left_click`/`right_click` operations, and the trailing
force-propagation block. -/
def update_cell (cfg : Config) (size : BoardSize) (board : Board)
    (cells : Cells) (p : Point) (m : CellMsg) : Cells × Option SpawnedOp :=
  match m with
  | CellMsg.press _ =>
      let cells' := setCell cells p fun c => { c with pressed := true }
      (applyPropagation size board cells' p m, none)
  | CellMsg.release _ =>
      let cells' := setCell cells p fun c => { c with pressed := false }
      (applyPropagation size board cells' p m, none)
  | CellMsg.selfPress b =>
      if b = MouseButton.right then
        (setCell cells p fun c => { c with pressed := false },
         some ⟨[], OpCall.flagTask p⟩)
      else
        let cells' := setCell cells p fun c => { c with pressed := true }
        (applyPropagation size board cells' p m, none)
  | CellMsg.selfRelease b =>
      if (cells p).pressed && b = MouseButton.left then
        leftClickM cfg size board cells p
      else
        let cells' := setCell cells p fun c => { c with pressed := false }
        (applyPropagation size board cells' p m, none)
  | CellMsg.forceArmed v =>
      (setCell cells p fun c => { c with force := v }, none)
  | CellMsg.revealing v =>
      (setCell cells p fun c =>
        { c with revealing := c.revealing + (if v then 1 else -1) }, none)
  | CellMsg.enter =>
      let cells' := setCell cells p fun c => { c with hovering := true }
      if cfg.hover_chord &&
          (match (board p).cell_type with
           | CellType.safe n => decide (0 < n)
           | _ => false) then
        leftClickM cfg size board cells' p
      else
        (applyPropagation size board cells' p m, none)
  | CellMsg.exit =>
      let cells' := setCell cells p fun c => { c with hovering := false }
      (applyPropagation size board cells' p m, none)

/-- The `Message::Cell` arm of `MinsweeperGame::update`
(src/src/minsweeper/mod.rs lines 105-116): every per-cell gesture message
is dropped unless the engine reports `GameStatus::Playing`. -/
def updateCellMsg (status : GameStatus) (cfg : Config) (size : BoardSize)
    (board : Board) (cells : Cells) (p : Point) (m : CellMsg) :
    Cells × Option SpawnedOp :=
  if status = GameStatus.playing then
    update_cell cfg size board cells p m
  else
    (cells, none)

theorem setCell_same (cells : Cells) (p : Point) (f : Cell → Cell) :
    setCell cells p f p = f (cells p) := by
  simp [setCell]

theorem setCell_other (cells : Cells) (p q : Point) (f : Cell → Cell)
    (h : q ≠ p) : setCell cells p f q = cells q := by
  simp [setCell, h]

theorem propagateForce_not_mem (cells : Cells) (ns : List Point) (v : Bool)
    (q : Point) (h : q ∉ ns) : propagateForce cells ns v q = cells q := by
  induction ns generalizing cells with
  | nil => rfl
  | cons x xs ih =>
      simp only [List.mem_cons, not_or] at h
      simp only [propagateForce, List.foldl_cons]
      rw [show (List.foldl _ _ xs : Cells) = propagateForce (setCell cells x _) xs v from rfl,
        ih _ h.2, setCell_other _ _ _ _ h.1]

theorem propagateForce_force (cells : Cells) (ns : List Point) (v : Bool)
    (q : Point) (h : q ∈ ns) : (propagateForce cells ns v q).force = v := by
  induction ns generalizing cells with
  | nil => cases h
  | cons x xs ih =>
      simp only [propagateForce, List.foldl_cons]
      rw [show (List.foldl _ _ xs : Cells) = propagateForce (setCell cells x _) xs v from rfl]
      by_cases hq : q ∈ xs
      · exact ih _ hq
      · have hx : q = x := by
          rcases List.mem_cons.mp h with h | h
          · exact h
          · exact absurd h hq
        rw [propagateForce_not_mem _ _ _ _ hq, hx, setCell_same]

theorem propagateForce_pressed (cells : Cells) (ns : List Point) (v : Bool)
    (q : Point) : (propagateForce cells ns v q).pressed = (cells q).pressed := by
  induction ns generalizing cells with
  | nil => rfl
  | cons x xs ih =>
      simp only [propagateForce, List.foldl_cons]
      rw [show (List.foldl _ _ xs : Cells) = propagateForce (setCell cells x _) xs v from rfl, ih]
      by_cases hq : q = x
      · subst hq; rw [setCell_same]
      · rw [setCell_other _ _ _ _ hq]

theorem propagateForce_hovering (cells : Cells) (ns : List Point) (v : Bool)
    (q : Point) : (propagateForce cells ns v q).hovering = (cells q).hovering := by
  induction ns generalizing cells with
  | nil => rfl
  | cons x xs ih =>
      simp only [propagateForce, List.foldl_cons]
      rw [show (List.foldl _ _ xs : Cells) = propagateForce (setCell cells x _) xs v from rfl, ih]
      by_cases hq : q = x
      · subst hq; rw [setCell_same]
      · rw [setCell_other _ _ _ _ hq]

theorem propagateForce_revealing (cells : Cells) (ns : List Point) (v : Bool)
    (q : Point) : (propagateForce cells ns v q).revealing = (cells q).revealing := by
  induction ns generalizing cells with
  | nil => rfl
  | cons x xs ih =>
      simp only [propagateForce, List.foldl_cons]
      rw [show (List.foldl _ _ xs : Cells) = propagateForce (setCell cells x _) xs v from rfl, ih]
      by_cases hq : q = x
      · subst hq; rw [setCell_same]
      · rw [setCell_other _ _ _ _ hq]

theorem bumpRevealings_revealing (cells : Cells) (rs : List Point) (d : Int)
    (q : Point) : (bumpRevealings cells rs d q).revealing
      = (cells q).revealing + d * countL q rs := by
  induction rs generalizing cells with
  | nil => simp [bumpRevealings, countL]
  | cons x xs ih =>
      simp only [bumpRevealings, List.foldl_cons]
      rw [show (List.foldl _ _ xs : Cells) = bumpRevealings (setCell cells x _) xs d from rfl,
        ih]
      by_cases hq : q = x
      · subst hq
        rw [setCell_same]
        simp [countL]
        ring
      · rw [setCell_other _ _ _ _ hq]
        have : x ≠ q := fun h => hq h.symm
        simp [countL, this]

theorem bumpRevealings_pressed (cells : Cells) (rs : List Point) (d : Int)
    (q : Point) : (bumpRevealings cells rs d q).pressed = (cells q).pressed := by
  induction rs generalizing cells with
  | nil => rfl
  | cons x xs ih =>
      simp only [bumpRevealings, List.foldl_cons]
      rw [show (List.foldl _ _ xs : Cells) = bumpRevealings (setCell cells x _) xs d from rfl, ih]
      by_cases hq : q = x
      · subst hq; rw [setCell_same]
      · rw [setCell_other _ _ _ _ hq]

theorem bumpRevealings_hovering (cells : Cells) (rs : List Point) (d : Int)
    (q : Point) : (bumpRevealings cells rs d q).hovering = (cells q).hovering := by
  induction rs generalizing cells with
  | nil => rfl
  | cons x xs ih =>
      simp only [bumpRevealings, List.foldl_cons]
      rw [show (List.foldl _ _ xs : Cells) = bumpRevealings (setCell cells x _) xs d from rfl, ih]
      by_cases hq : q = x
      · subst hq; rw [setCell_same]
      · rw [setCell_other _ _ _ _ hq]

theorem bumpRevealings_force (cells : Cells) (rs : List Point) (d : Int)
    (q : Point) : (bumpRevealings cells rs d q).force = (cells q).force := by
  induction rs generalizing cells with
  | nil => rfl
  | cons x xs ih =>
      simp only [bumpRevealings, List.foldl_cons]
      rw [show (List.foldl _ _ xs : Cells) = bumpRevealings (setCell cells x _) xs d from rfl, ih]
      by_cases hq : q = x
      · subst hq; rw [setCell_same]
      · rw [setCell_other _ _ _ _ hq]

theorem applyPropagation_pressed (size : BoardSize) (board : Board)
    (cells : Cells) (p : Point) (m : CellMsg) (q : Point) :
    (applyPropagation size board cells p m q).pressed = (cells q).pressed := by
  rw [applyPropagation]
  split
  · dsimp only
    split
    · exact propagateForce_pressed ..
    · rfl
  · rfl

theorem applyPropagation_hovering (size : BoardSize) (board : Board)
    (cells : Cells) (p : Point) (m : CellMsg) (q : Point) :
    (applyPropagation size board cells p m q).hovering = (cells q).hovering := by
  rw [applyPropagation]
  split
  · dsimp only
    split
    · exact propagateForce_hovering ..
    · rfl
  · rfl

theorem applyPropagation_revealing (size : BoardSize) (board : Board)
    (cells : Cells) (p : Point) (m : CellMsg) (q : Point) :
    (applyPropagation size board cells p m q).revealing = (cells q).revealing := by
  rw [applyPropagation]
  split
  · dsimp only
    split
    · exact propagateForce_revealing ..
    · rfl
  · rfl

/-- A 3×3 board used to evaluate the theorems on concrete inputs. -/
def size3 : BoardSize := ⟨3, 3⟩

/-- A concrete snapshot: `(1,1)` is revealed with number 2, neighbour
`(0,0)` is flagged (still type-unknown), neighbour `(0,1)` is unrevealed
and unflagged, every other cell is revealed and safe. -/
def boardFlagged : Board := fun p =>
  if p = (1, 1) then ⟨CellState.revealed, CellType.safe 2⟩
  else if p = (0, 0) then ⟨CellState.flagged, CellType.unknown⟩
  else if p = (0, 1) then ⟨CellState.unknown, CellType.unknown⟩
  else ⟨CellState.revealed, CellType.safe 0⟩

/-- A concrete grid of interaction states where every flag is clear and
every reveal counter is 0. -/
def cells0 : Cells := fun _ => ⟨false, false, false, 0⟩

/-- C7: the reveal set acquired by `MinsweeperGame::left_click` (used both
for left-release and for the hover-chord trigger) is the full neighbour set
of `p` — `p`'s own counter untouched — when the snapshot shows `p` revealed
with a number (`CellType::Safe`), and exactly `{p}` when the snapshot shows
`p` unrevealed/unknown-or-flagged (`CellType::Unknown`). -/
theorem reveal_set_of_snapshot (size : BoardSize) (board : Board) (p : Point) :
    (∀ n, (board p).cell_type = CellType.safe n →
      revealSet size board p = size.neighbours p ∧ p ∉ size.neighbours p) ∧
    ((board p).cell_type = CellType.unknown → revealSet size board p = [p]) := by
  constructor
  · intro n hn
    refine ⟨?_, not_self_mem_neighbours size p⟩
    rw [revealSet, hn]
  · intro hn
    rw [revealSet, hn]

/-- Witness for C7 at a concrete input: on `boardFlagged`, cell `(1,1)` is
`Safe 2`, so its reveal set is its neighbour list, which excludes `(1,1)`;
and cell `(0,1)` is type-unknown, so its reveal set is itself alone. -/
theorem reveal_set_of_snapshot_witness :
    (revealSet size3 boardFlagged (1, 1) = size3.neighbours (1, 1) ∧
      (1, 1) ∉ size3.neighbours (1, 1)) ∧
    revealSet size3 boardFlagged (0, 1) = [(0, 1)] :=
  ⟨(reveal_set_of_snapshot size3 boardFlagged (1, 1)).1 2 (by decide),
   (reveal_set_of_snapshot size3 boardFlagged (0, 1)).2 (by decide)⟩

/-- C10: when the engine's reported status is anything other than
`Playing`, the `Message::Cell` arm of `MinsweeperGame::update` discards
every per-cell gesture message — press, release, hover enter/exit,
forced-armed and revealing updates included — leaving every cell's
interaction state and reveal counter unchanged and spawning no task. -/
theorem status_gate_discards (status : GameStatus) (cfg : Config)
    (size : BoardSize) (board : Board) (cells : Cells) (p : Point)
    (m : CellMsg) (h : status ≠ GameStatus.playing) :
    updateCellMsg status cfg size board cells p m = (cells, none) := by
  rw [updateCellMsg, if_neg h]

/-- Witness for C10 at a concrete input: with status `Won`, even a
`Revealing` counter update at `(0,0)` is discarded wholesale. -/
theorem status_gate_discards_witness :
    updateCellMsg GameStatus.won ⟨true, true⟩ size3 boardFlagged cells0
      (0, 0) (CellMsg.revealing true) = (cells0, none) :=
  status_gate_discards GameStatus.won ⟨true, true⟩ size3 boardFlagged cells0
    (0, 0) (CellMsg.revealing true) (by decide)

/-- C8: with hover-chord enabled, a hover-enter on a revealed numbered
cell spawns exactly the operation a left-release on that (pressed) cell
would spawn, with the same reveal-set acquisition on every counter; with
hover-chord disabled, a hover-enter never spawns an operation — it sets
the hovering flag and leaves every cell's pressed flag and reveal counter
unchanged. -/
theorem hover_chord_matches_release (cfg : Config) (size : BoardSize)
    (board : Board) (cells : Cells) (p : Point) :
    (∀ n, cfg.hover_chord = true → (board p).cell_type = CellType.safe n →
      0 < n → (cells p).pressed = true →
      (update_cell cfg size board cells p CellMsg.enter).2 =
        (update_cell cfg size board cells p (CellMsg.selfRelease MouseButton.left)).2 ∧
      ∀ q, ((update_cell cfg size board cells p CellMsg.enter).1 q).revealing =
        ((update_cell cfg size board cells p (CellMsg.selfRelease MouseButton.left)).1 q).revealing) ∧
    (cfg.hover_chord = false →
      (update_cell cfg size board cells p CellMsg.enter).2 = none ∧
      ((update_cell cfg size board cells p CellMsg.enter).1 p).hovering = true ∧
      ∀ q, ((update_cell cfg size board cells p CellMsg.enter).1 q).pressed =
          (cells q).pressed ∧
        ((update_cell cfg size board cells p CellMsg.enter).1 q).revealing =
          (cells q).revealing) := by
  constructor
  · intro n hh hsafe hn hpress
    have hcond : (cfg.hover_chord &&
        match (board p).cell_type with
        | CellType.safe k => decide (0 < k)
        | _ => false) = true := by
      rw [hh, hsafe]
      simpa using hn
    have henter : update_cell cfg size board cells p CellMsg.enter =
        leftClickM cfg size board
          (setCell cells p fun c => { c with hovering := true }) p := by
      simp only [update_cell]
      rw [if_pos hcond]
    have hrel : update_cell cfg size board cells p
        (CellMsg.selfRelease MouseButton.left) =
        leftClickM cfg size board cells p := by
      simp only [update_cell]
      rw [if_pos (by simp [hpress])]
    rw [henter, hrel]
    constructor
    · rfl
    · intro q
      simp only [leftClickM]
      rw [bumpRevealings_revealing, bumpRevealings_revealing]
      by_cases hq : q = p
      · subst hq
        rw [setCell_same]
      · rw [setCell_other _ _ _ _ hq]
  · intro hh
    have hcond : (cfg.hover_chord &&
        match (board p).cell_type with
        | CellType.safe k => decide (0 < k)
        | _ => false) = false := by
      rw [hh]
      rfl
    have henter : update_cell cfg size board cells p CellMsg.enter =
        (applyPropagation size board
          (setCell cells p fun c => { c with hovering := true }) p CellMsg.enter,
         none) := by
      simp only [update_cell]
      rw [if_neg (by simp [hcond])]
    rw [henter]
    refine ⟨rfl, ?_, ?_⟩
    · rw [applyPropagation_hovering, setCell_same]
    · intro q
      rw [applyPropagation_pressed, applyPropagation_revealing]
      by_cases hq : q = p
      · subst hq
        rw [setCell_same]
        exact ⟨rfl, rfl⟩
      · rw [setCell_other _ _ _ _ hq]
        exact ⟨rfl, rfl⟩

/-- A grid where `(1,1)` is hovered and pressed, as after a press while
hovering, with all counters 0. -/
def cellsHover : Cells := fun q =>
  if q = (1, 1) then ⟨true, true, false, 0⟩ else ⟨false, false, false, 0⟩

/-- Witness for C8 at a concrete input: on `boardFlagged`, entering the
pressed cell `(1,1)` (a `Safe 2` cell) with hover-chord on spawns the same
operation as a left-release there, and with hover-chord off entering
spawns nothing. -/
theorem hover_chord_matches_release_witness :
    ((update_cell ⟨false, true⟩ size3 boardFlagged cellsHover (1, 1) CellMsg.enter).2 =
      (update_cell ⟨false, true⟩ size3 boardFlagged cellsHover (1, 1)
        (CellMsg.selfRelease MouseButton.left)).2) ∧
    (update_cell ⟨false, false⟩ size3 boardFlagged cellsHover (1, 1) CellMsg.enter).2 = none :=
  ⟨((hover_chord_matches_release ⟨false, true⟩ size3 boardFlagged cellsHover (1, 1)).1
      2 rfl (by decide) (by decide) (by decide)).1,
   ((hover_chord_matches_release ⟨false, false⟩ size3 boardFlagged cellsHover (1, 1)).2
      rfl).1⟩

theorem applyPropagation_spec (size : BoardSize) (board : Board)
    (cells : Cells) (p : Point) (m : CellMsg)
    (hm : propagationMsg m = true)
    (hguard : ((cells p).pressed || pressLikeMsg m) = true)
    (hsafe : typeSafe (board p) = true) :
    applyPropagation size board cells p m =
      propagateForce cells (size.neighbours p) (cells p).is_down := by
  rw [applyPropagation, if_pos hm]
  dsimp only
  rw [if_pos (by simp [hguard, hsafe])]

/-- C9: on a revealed numbered cell `p` that is being hovered (so that
`pressed && hovering` holds after the press) with its own reveal counter
at 0, a left press sets `forced_armed := true` on exactly `p`'s direct
neighbours and changes no other cell's flag; the subsequent hover-exit, or
the release message every cell receives on mouse-release, sets
`forced_armed := false` on those same neighbours and changes no other
cell's flag. Neighbours never propagate further: the `ForceArmed` message
itself only stores the flag. -/
theorem force_propagation_exact (cfg : Config) (size : BoardSize)
    (board : Board) (cells : Cells) (p : Point) (n : Nat)
    (hsafe : (board p).cell_type = CellType.safe n)
    (hhov : (cells p).hovering = true)
    (hrev : (cells p).revealing = 0) :
    ∀ s1 s2 s3,
      s1 = (update_cell cfg size board cells p (CellMsg.selfPress MouseButton.left)).1 →
      s2 = (update_cell cfg size board s1 p CellMsg.exit).1 →
      s3 = (update_cell cfg size board s1 p (CellMsg.release MouseButton.left)).1 →
      ((∀ q ∈ size.neighbours p, (s1 q).force = true) ∧
        ∀ q, q ∉ size.neighbours p → (s1 q).force = (cells q).force) ∧
      ((∀ q ∈ size.neighbours p, (s2 q).force = false) ∧
        ∀ q, q ∉ size.neighbours p → (s2 q).force = (s1 q).force) ∧
      ((∀ q ∈ size.neighbours p, (s3 q).force = false) ∧
        ∀ q, q ∉ size.neighbours p → (s3 q).force = (s1 q).force) := by
  intro s1 s2 s3 hs1 hs2 hs3
  have hts : typeSafe (board p) = true := by
    rw [typeSafe, hsafe]
  have hnp : p ∉ size.neighbours p := not_self_mem_neighbours size p
  -- The press: update_cell reduces to propagation over the pressed cell.
  have hc1 : ∀ q, (setCell cells p (fun c => { c with pressed := true })) q =
      if q = p then { cells p with pressed := true } else cells q := by
    intro q
    by_cases hq : q = p
    · subst hq
      rw [setCell_same, if_pos rfl]
    · rw [setCell_other _ _ _ _ hq, if_neg hq]
  have hdown1 : ((setCell cells p (fun c => { c with pressed := true })) p).is_down = true := by
    rw [hc1, if_pos rfl, Cell.is_down]
    simp [hhov, hrev]
  have hs1' : s1 = propagateForce
      (setCell cells p fun c => { c with pressed := true })
      (size.neighbours p)
      ((setCell cells p (fun c => { c with pressed := true })) p).is_down := by
    have happ := applyPropagation_spec size board
      (setCell cells p fun c => { c with pressed := true }) p
      (CellMsg.selfPress MouseButton.left) rfl
      (by rw [hc1 p, if_pos rfl]; rfl) hts
    rw [hs1]
    simp only [update_cell]
    rw [if_neg (by decide : ¬ (MouseButton.left = MouseButton.right))]
    dsimp only
    rw [happ]
  have hs1force : (∀ q ∈ size.neighbours p, (s1 q).force = true) ∧
      ∀ q, q ∉ size.neighbours p → (s1 q).force = (cells q).force := by
    constructor
    · intro q hq
      rw [hs1', propagateForce_force _ _ _ _ hq, hdown1]
    · intro q hq
      rw [hs1', propagateForce_not_mem _ _ _ _ hq, hc1]
      by_cases hqp : q = p
      · subst hqp
        rw [if_pos rfl]
      · rw [if_neg hqp]
  -- Facts about the state after the press, at p itself.
  have hs1p : s1 p = { cells p with pressed := true } := by
    rw [hs1', propagateForce_not_mem _ _ _ _ hnp, hc1, if_pos rfl]
  refine ⟨hs1force, ?_, ?_⟩
  -- Hover-exit: pressed is still true, hovering drops, counter is 0.
  · have hc2 : ∀ q, (setCell s1 p (fun c => { c with hovering := false })) q =
        if q = p then { s1 p with hovering := false } else s1 q := by
      intro q
      by_cases hq : q = p
      · subst hq
        rw [setCell_same, if_pos rfl]
      · rw [setCell_other _ _ _ _ hq, if_neg hq]
    have hdown2 : ((setCell s1 p (fun c => { c with hovering := false })) p).is_down = false := by
      rw [hc2, if_pos rfl, Cell.is_down, hs1p]
      simp [hrev]
    have hs2' : s2 = propagateForce
        (setCell s1 p fun c => { c with hovering := false })
        (size.neighbours p)
        ((setCell s1 p (fun c => { c with hovering := false })) p).is_down := by
      have happ := applyPropagation_spec size board
        (setCell s1 p fun c => { c with hovering := false }) p
        CellMsg.exit rfl
        (by rw [hc2 p, if_pos rfl]; simp [hs1p, pressLikeMsg]) hts
      rw [hs2]
      simp only [update_cell]
      rw [happ]
    constructor
    · intro q hq
      rw [hs2', propagateForce_force _ _ _ _ hq, hdown2]
    · intro q hq
      rw [hs2', propagateForce_not_mem _ _ _ _ hq, hc2]
      by_cases hqp : q = p
      · subst hqp
        rw [if_pos rfl, hs1p]
      · rw [if_neg hqp]
  -- Release: pressed drops, counter is 0, message is press-like.
  · have hc3 : ∀ q, (setCell s1 p (fun c => { c with pressed := false })) q =
        if q = p then { s1 p with pressed := false } else s1 q := by
      intro q
      by_cases hq : q = p
      · subst hq
        rw [setCell_same, if_pos rfl]
      · rw [setCell_other _ _ _ _ hq, if_neg hq]
    have hdown3 : ((setCell s1 p (fun c => { c with pressed := false })) p).is_down = false := by
      rw [hc3, if_pos rfl, Cell.is_down, hs1p]
      simp [hrev]
    have hs3' : s3 = propagateForce
        (setCell s1 p fun c => { c with pressed := false })
        (size.neighbours p)
        ((setCell s1 p (fun c => { c with pressed := false })) p).is_down := by
      have happ := applyPropagation_spec size board
        (setCell s1 p fun c => { c with pressed := false }) p
        (CellMsg.release MouseButton.left) rfl
        (by simp [pressLikeMsg]) hts
      rw [hs3]
      simp only [update_cell]
      rw [happ]
    constructor
    · intro q hq
      rw [hs3', propagateForce_force _ _ _ _ hq, hdown3]
    · intro q hq
      rw [hs3', propagateForce_not_mem _ _ _ _ hq, hc3]
      by_cases hqp : q = p
      · subst hqp
        rw [if_pos rfl, hs1p]
      · rw [if_neg hqp]

/-- Witness for C9 at a concrete input: on `boardFlagged`, with `(1,1)`
hovered, a left press forces neighbour `(0,1)` armed while leaving the
non-neighbour `(1,1)` itself untouched, and the subsequent hover-exit
disarms `(0,1)` again. -/
theorem force_propagation_exact_witness :
    (((update_cell ⟨false, false⟩ size3 boardFlagged cellsHover (1, 1)
        (CellMsg.selfPress MouseButton.left)).1 (0, 1)).force = true) ∧
    (((update_cell ⟨false, false⟩ size3 boardFlagged cellsHover (1, 1)
        (CellMsg.selfPress MouseButton.left)).1 (1, 1)).force =
      (cellsHover (1, 1)).force) ∧
    (((update_cell ⟨false, false⟩ size3 boardFlagged
        ((update_cell ⟨false, false⟩ size3 boardFlagged cellsHover (1, 1)
          (CellMsg.selfPress MouseButton.left)).1) (1, 1) CellMsg.exit).1 (0, 1)).force
      = false) := by
  have h := force_propagation_exact ⟨false, false⟩ size3 boardFlagged cellsHover
    (1, 1) 2 (by decide) (by decide) (by decide)
    ((update_cell ⟨false, false⟩ size3 boardFlagged cellsHover (1, 1)
      (CellMsg.selfPress MouseButton.left)).1)
    ((update_cell ⟨false, false⟩ size3 boardFlagged
      ((update_cell ⟨false, false⟩ size3 boardFlagged cellsHover (1, 1)
        (CellMsg.selfPress MouseButton.left)).1) (1, 1) CellMsg.exit).1)
    ((update_cell ⟨false, false⟩ size3 boardFlagged
      ((update_cell ⟨false, false⟩ size3 boardFlagged cellsHover (1, 1)
        (CellMsg.selfPress MouseButton.left)).1) (1, 1)
      (CellMsg.release MouseButton.left)).1)
    rfl rfl rfl
  exact ⟨h.1.1 (0, 1) (by decide), h.1.2 (1, 1) (by decide),
    h.2.1.1 (0, 1) (by decide)⟩

/-- Number of flag-toggle calls in a sequence of engine calls. -/
def flagCallCount (calls : List EngineCall) : Nat :=
  (calls.filter fun c =>
    match c with
    | EngineCall.toggleFlag _ => true
    | _ => false).length

/-- C4 (amended): with flag-chord enabled, on a cell of type `Safe(n)` the
free `left_click` issues one flag-toggle per neighbour whose `cell_state`
is `Unknown` (not flagged), sequentially and all before the single
reveal/chord call, exactly when the number of neighbours whose `cell_type`
is `Unknown` (unrevealed, flagged included) equals `n`; otherwise it
issues zero flag-toggles and only the reveal call. When every type-unknown
neighbour is also state-unknown (no flagged neighbours) the flag-toggle
count is exactly `n`. -/
theorem flag_chord_calls (size : BoardSize) (board : Board) (p : Point)
    (n : Nat) (hsafe : (board p).cell_type = CellType.safe n) :
    (((size.neighbours p).filter fun q => typeUnknown (board q)).length = n →
      leftClickCalls size board p true =
        (((size.neighbours p).filter fun q => stateUnknown (board q)).map
          EngineCall.toggleFlag) ++ [EngineCall.reveal p] ∧
      ((∀ q ∈ size.neighbours p, typeUnknown (board q) = stateUnknown (board q)) →
        flagCallCount (leftClickCalls size board p true) = n)) ∧
    (((size.neighbours p).filter fun q => typeUnknown (board q)).length ≠ n →
      leftClickCalls size board p true = [EngineCall.reveal p]) := by
  have happlies : flagChordApplies size board p =
      decide (((size.neighbours p).filter fun q => typeUnknown (board q)).length = n) := by
    rw [flagChordApplies, hsafe]
  constructor
  · intro hlen
    have hguard : (true && flagChordApplies size board p) = true := by
      simp [happlies, hlen]
    have hcalls : leftClickCalls size board p true =
        (((size.neighbours p).filter fun q => stateUnknown (board q)).map
          EngineCall.toggleFlag) ++ [EngineCall.reveal p] := by
      rw [leftClickCalls, if_pos hguard]
    refine ⟨hcalls, fun hnoflag => ?_⟩
    have hfilter : ((size.neighbours p).filter fun q => stateUnknown (board q)) =
        ((size.neighbours p).filter fun q => typeUnknown (board q)) := by
      exact List.filter_congr fun q hq => (hnoflag q hq).symm
    rw [hcalls, flagCallCount, List.filter_append, List.filter_map]
    simp only [List.filter_cons, List.filter_nil]
    rw [List.length_append, hfilter]
    simp [hlen, List.length_map, Function.comp]
  · intro hlen
    have hguard : (true && flagChordApplies size board p) = false := by
      simp [happlies, hlen]
    rw [leftClickCalls, if_neg (by simp [hguard])]
    rfl

/-- Witness for C4 (amended) at a concrete input: on `boardFlagged`, cell
`(1,1)` has number 2 and two type-unknown neighbours, so the operation
issues the flag-toggle on the sole unflagged unknown neighbour `(0,1)`
followed by the reveal call on `(1,1)`. -/
theorem flag_chord_calls_witness :
    leftClickCalls size3 boardFlagged (1, 1) true =
      [EngineCall.toggleFlag (0, 1), EngineCall.reveal (1, 1)] := by
  have h := (flag_chord_calls size3 boardFlagged (1, 1) 2 (by decide)).1 (by decide)
  rw [h.1]
  decide

/-- Counterexample to C4 as stated: at `boardFlagged`, cell `(1,1)` is
`Safe 2` with two type-unknown neighbours (one of them flagged) and one
state-unknown neighbour. The operation issues exactly one flag-toggle —
neither the `n = 2` toggles the claim requires if "unknown neighbours"
counts unrevealed cells, nor the zero toggles it requires if "unknown
neighbours" excludes flagged cells (1 ≠ 2, so the claim's count-mismatch
branch demands no toggles at all). -/
theorem flag_chord_claim_counterexample :
    (boardFlagged (1, 1)).cell_type = CellType.safe 2 ∧
    ¬(((size3.neighbours (1, 1)).filter fun q => typeUnknown (boardFlagged q)).length = 2 →
      flagCallCount (leftClickCalls size3 boardFlagged (1, 1) true) = 2) ∧
    ¬(((size3.neighbours (1, 1)).filter fun q => stateUnknown (boardFlagged q)).length ≠ 2 →
      flagCallCount (leftClickCalls size3 boardFlagged (1, 1) true) = 0) := by
  decide

/-- The cancellation registry `handles: HashMap<Uuid, AbortHandle>`,
modelled as an association list from token to whether that operation's
abort handle has been signalled. -/
abbrev Registry := List (Nat × Bool)

/-- `handles.get(&uuid)`. -/
def Registry.find (t : Nat) : Registry → Option Bool
  | [] => none
  | (i, a) :: rest => if i = t then some a else Registry.find t rest

/-- `handle.abort()` on the handle stored under `t`: the entry stays in
the registry, only its abort handle is signalled. -/
def Registry.abortEntry (t : Nat) : Registry → Registry
  | [] => []
  | (i, a) :: rest =>
      if i = t then (i, true) :: rest else (i, a) :: Registry.abortEntry t rest

/-- `handles.remove(&uuid)`. -/
def Registry.eraseTok (t : Nat) : Registry → Registry
  | [] => []
  | (i, a) :: rest =>
      if i = t then rest else (i, a) :: Registry.eraseTok t rest

/-- The registry action of `MinsweeperGame::left_click`'s completion
handler (src/src/minsweeper/mod.rs lines 163-173): after releasing the
reveal counters it executes `handles.remove(&uuid)`. -/
def leftClickCompletion (t : Nat) (reg : Registry) : Registry :=
  Registry.eraseTok t reg

/-- The registry action of `MinsweeperGame::right_click`'s completion
handler (src/src/minsweeper/mod.rs lines 385-392): it looks its own token
up with `handles.get(&uuid)` — returning early if absent — and calls
`handle.abort()` on the stored handle. It never removes the entry. -/
def rightClickCompletion (t : Nat) (reg : Registry) : Registry :=
  match Registry.find t reg with
  | none => reg
  | some _ => Registry.abortEntry t reg

/-- C2 evaluated at the failing input: a right-click flag-toggle operation
registered under token 7 completes, yet its token is still present in the
registry (its already-finished handle merely marked aborted), while a
left-click operation's completion handler does remove its token. The
registry-wide cancel-all of a restart is thus the only removal path for
right-click tokens, contradicting the claim that the right-click
completion handler removes its own token. -/
theorem right_click_completion_leaves_token :
    rightClickCompletion 7 [(7, false)] = [(7, true)] ∧
    Registry.find 7 (rightClickCompletion 7 [(7, false)]) = some true ∧
    leftClickCompletion 7 [(7, false)] = [] := by
  decide

/-- The session-level state touched by `Message::Restart`. -/
structure MGame where
  cells : Cells
  handles : Registry
  autoing : Bool

/-- Side effects issued by the restart handler. -/
inductive RestartEffect where
  | abortSignal (t : Nat)
  | reinitialize
deriving DecidableEq, Repr

/-- The `Message::Restart` arm of `MinsweeperGame::update`
(src/src/minsweeper/mod.rs lines 120-131): signal `abort` on every
registered handle, clear the registry, and spawn
`game.start_with_solver(solver)`. The per-cell interaction states and
reveal counters are not touched. -/
def restartUpdate (g : MGame) : MGame × List RestartEffect :=
  ({ g with handles := [] },
   (g.handles.map fun e => RestartEffect.abortSignal e.1) ++ [RestartEffect.reinitialize])

/-- C3 (amended): after `restart()` the ActionRegistry is empty regardless
of how many operations were outstanding, an abort signal was issued to
every one of them, and a re-initialization call with the current solver is
spawned — but the cells' InteractionState and RevealCounters are left
exactly as they were (counters return to 0 only through the cancelled
operations' own completion handlers). -/
theorem restart_clears_registry (g : MGame) :
    (restartUpdate g).1.handles = [] ∧
    (restartUpdate g).1.cells = g.cells ∧
    RestartEffect.reinitialize ∈ (restartUpdate g).2 ∧
    ∀ e ∈ g.handles, RestartEffect.abortSignal e.1 ∈ (restartUpdate g).2 := by
  refine ⟨rfl, rfl, by simp [restartUpdate], fun e he => ?_⟩
  rw [restartUpdate]
  exact List.mem_append_left _ (List.mem_map_of_mem _ he)

/-- A session state with one pressed cell holding a positive reveal
counter and one outstanding registered operation. -/
def gBusy : MGame :=
  { cells := fun q =>
      if q = (0, 0) then ⟨false, true, false, 1⟩ else ⟨false, false, false, 0⟩,
    handles := [(5, false)],
    autoing := true }

/-- Witness for C3 (amended) at a concrete input: restarting `gBusy`
empties the registry and signals abort to the registered token 5. -/
theorem restart_clears_registry_witness :
    (restartUpdate gBusy).1.handles = [] ∧
    RestartEffect.abortSignal 5 ∈ (restartUpdate gBusy).2 :=
  ⟨(restart_clears_registry gBusy).1,
   (restart_clears_registry gBusy).2.2.2 (5, false) (by decide)⟩

/-- Counterexample to C3 as stated: restarting `gBusy` leaves cell
`(0,0)` pressed with reveal counter 1 — its InteractionState is not reset
to default and its RevealCounter is not reset to 0 by the restart handler
itself. -/
theorem restart_claim_counterexample :
    ((restartUpdate gBusy).1.cells (0, 0)).pressed = true ∧
    ((restartUpdate gBusy).1.cells (0, 0)).revealing = 1 ∧
    ¬(((restartUpdate gBusy).1.cells (0, 0)).pressed = false ∧
      ((restartUpdate gBusy).1.cells (0, 0)).revealing = 0) := by
  decide

/-- Outcome of an operation as seen by its completion continuation
(`task.then(move |_| …)` ignores it): engine success, silent engine
rejection, or cancellation via `handle.abort()`. -/
inductive Outcome where
  | success
  | rejected
  | cancelled
deriving DecidableEq, Repr

/-- One observable step in the life of reveal/chord operations: a launch
(the `fetch_add(1)` loop over the captured `revealings` list followed by
spawning the registered operation) or a completion (the completion
handler's `fetch_sub(1)` loop over the same captured list, run for every
outcome alike). -/
inductive TEvent where
  | launch (id : Nat) (revealings : List Point)
  | complete (id : Nat) (outcome : Outcome)
deriving DecidableEq, Repr

/-- The state evolved by a trace of operation launches and completions:
the per-cell interaction states (only `revealing` is touched) and the
list of still-open operations together with their captured reveal sets. -/
structure TState where
  cells : Cells
  openOps : List (Nat × List Point)

/-- Look up the captured reveal set of an open operation. -/
def findOp (id : Nat) : List (Nat × List Point) → Option (List Point)
  | [] => none
  | (i, rs) :: rest => if i = id then some rs else findOp id rest

/-- Remove an operation from the open list. -/
def removeOp (id : Nat) : List (Nat × List Point) → List (Nat × List Point)
  | [] => []
  | (i, rs) :: rest => if i = id then rest else (i, rs) :: removeOp id rest

/-- Apply one event: a launch increments every counter in its reveal set
and opens the operation; a completion decrements every counter in the
operation's captured set — whatever the outcome — and closes it. -/
def traceStep (s : TState) : TEvent → TState
  | TEvent.launch id rs =>
      { cells := bumpRevealings s.cells rs 1, openOps := (id, rs) :: s.openOps }
  | TEvent.complete id _ =>
      match findOp id s.openOps with
      | some rs =>
          { cells := bumpRevealings s.cells rs (-1), openOps := removeOp id s.openOps }
      | none => s

/-- Run a whole trace. -/
def runTrace (s : TState) (es : List TEvent) : TState :=
  es.foldl traceStep s

/-- Well-formedness of a trace against the set of currently open tokens:
every launch uses a fresh token, every completion completes an open one
(the completion handler runs exactly once per spawned operation). -/
def wfTrace (openIds : List Nat) : List TEvent → Bool
  | [] => true
  | TEvent.launch id _ :: es => !(openIds.contains id) && wfTrace (id :: openIds) es
  | TEvent.complete id _ :: es => openIds.contains id && wfTrace (openIds.erase id) es

/-- Total multiplicity of cell `c` among the reveal sets of the open
operations: the number of in-flight acquisitions of `c`. -/
def pendingCount (ops : List (Nat × List Point)) (c : Point) : Nat :=
  (ops.map fun e => countL c e.2).sum

theorem removeOp_map_fst (id : Nat) (ops : List (Nat × List Point)) :
    (removeOp id ops).map Prod.fst = (ops.map Prod.fst).erase id := by
  induction ops with
  | nil => rfl
  | cons x rest ih =>
      obtain ⟨i, rs⟩ := x
      by_cases hi : i = id
      · subst hi
        simp [removeOp, List.erase_cons]
      · simp [removeOp, hi, List.erase_cons, ih, Ne.symm hi]

theorem findOp_isSome_of_mem {id : Nat} {ops : List (Nat × List Point)}
    (h : id ∈ ops.map Prod.fst) : ∃ rs, findOp id ops = some rs := by
  induction ops with
  | nil => simp at h
  | cons x rest ih =>
      obtain ⟨i, rs⟩ := x
      by_cases hi : i = id
      · exact ⟨rs, by simp [findOp, hi]⟩
      · rw [List.map_cons, List.mem_cons] at h
        rcases h with h | h
        · exact absurd h.symm hi
        · obtain ⟨rs', hrs'⟩ := ih h
          exact ⟨rs', by simp [findOp, hi, hrs']⟩

theorem pendingCount_remove {id : Nat} {ops : List (Nat × List Point)}
    {rs : List Point} (hfind : findOp id ops = some rs) (c : Point) :
    pendingCount ops c = countL c rs + pendingCount (removeOp id ops) c := by
  induction ops with
  | nil => simp [findOp] at hfind
  | cons x rest ih =>
      obtain ⟨i, rs'⟩ := x
      by_cases hi : i = id
      · subst hi
        rw [findOp, if_pos rfl] at hfind
        cases hfind
        simp [removeOp, pendingCount]
      · rw [findOp, if_neg hi] at hfind
        have hrest := ih hfind
        simp only [removeOp, if_neg hi, pendingCount, List.map_cons, List.sum_cons] at hrest ⊢
        omega

theorem runTrace_inv (es : List TEvent) :
    ∀ s : TState, wfTrace (s.openOps.map Prod.fst) es = true →
      (∀ c, (s.cells c).revealing = (pendingCount s.openOps c : Int)) →
      ∀ c, ((runTrace s es).cells c).revealing
        = (pendingCount (runTrace s es).openOps c : Int) := by
  induction es with
  | nil => intro s _ hinv c; exact hinv c
  | cons e es ih =>
      intro s hwf hinv c
      match e with
      | TEvent.launch id rs =>
          rw [wfTrace] at hwf
          have hwf' := (Bool.and_eq_true_iff.mp hwf).2
          refine ih (traceStep s (TEvent.launch id rs)) ?_ ?_ c
          · simpa [traceStep] using hwf'
          · intro c'
            simp only [traceStep, bumpRevealings_revealing, pendingCount,
              List.map_cons, List.sum_cons]
            rw [hinv c',
              show (List.map (fun e => countL c' e.2) s.openOps).sum
                = pendingCount s.openOps c' from rfl]
            push_cast
            ring
      | TEvent.complete id oc =>
          rw [wfTrace] at hwf
          have hmem := (Bool.and_eq_true_iff.mp hwf).1
          have hwf' := (Bool.and_eq_true_iff.mp hwf).2
          have hmem' : id ∈ s.openOps.map Prod.fst := by
            simpa using hmem
          obtain ⟨rs, hrs⟩ := findOp_isSome_of_mem hmem'
          refine ih (traceStep s (TEvent.complete id oc)) ?_ ?_ c
          · have : (traceStep s (TEvent.complete id oc)).openOps
                = removeOp id s.openOps := by
              simp [traceStep, hrs]
            rw [this, removeOp_map_fst]
            exact hwf'
          · intro c'
            have hstep : traceStep s (TEvent.complete id oc) =
                { cells := bumpRevealings s.cells rs (-1),
                  openOps := removeOp id s.openOps } := by
              simp [traceStep, hrs]
            rw [hstep]
            simp only [bumpRevealings_revealing]
            rw [hinv c', pendingCount_remove hrs c']
            push_cast
            ring

/-- C1: over any well-formed sequence of reveal/chord operation launches
and completions starting from all-zero counters, each cell's reveal
counter always equals the number of open operations whose captured reveal
set contains it (each such operation contributes exactly 1, since a reveal
set never repeats a cell); hence it is never negative, and it is exactly 0
once every operation that acquired the cell has completed or been
cancelled — the completion handler decrements regardless of outcome. -/
theorem reveal_counter_balanced (es : List TEvent) (init : Cells)
    (h0 : ∀ c, (init c).revealing = 0) (hwf : wfTrace [] es = true) :
    (∀ c, ((runTrace ⟨init, []⟩ es).cells c).revealing
      = (pendingCount (runTrace ⟨init, []⟩ es).openOps c : Int)) ∧
    (∀ c, 0 ≤ ((runTrace ⟨init, []⟩ es).cells c).revealing) ∧
    (∀ c, (∀ e ∈ (runTrace ⟨init, []⟩ es).openOps, c ∉ e.2) →
      ((runTrace ⟨init, []⟩ es).cells c).revealing = 0) ∧
    (∀ size board p c, c ∈ revealSet size board p →
      countL c (revealSet size board p) = 1) := by
  have hmain := runTrace_inv es ⟨init, []⟩ (by simpa using hwf)
    (fun c => by simpa [pendingCount] using h0 c)
  refine ⟨hmain, fun c => ?_, fun c hnone => ?_, countL_revealSet⟩
  · rw [hmain c]
    exact Int.ofNat_nonneg _
  · rw [hmain c]
    have : pendingCount (runTrace ⟨init, []⟩ es).openOps c = 0 := by
      rw [pendingCount]
      refine List.sum_eq_zero fun x hx => ?_
      rw [List.mem_map] at hx
      obtain ⟨e, he, hxe⟩ := hx
      rw [← hxe]
      exact countL_eq_zero_of_not_mem (hnone e he)
    rw [this]
    rfl

/-- Witness for C1 at a concrete input: two overlapping chord operations
acquire cell `(0,1)`; its counter is 2 while both are open, stays
non-negative throughout, and returns to 0 after one is cancelled and the
other succeeds. -/
theorem reveal_counter_balanced_witness :
    0 ≤ ((runTrace ⟨cells0, []⟩
      [TEvent.launch 0 [(0, 0), (0, 1)], TEvent.launch 1 [(0, 1)],
       TEvent.complete 0 Outcome.cancelled,
       TEvent.complete 1 Outcome.success]).cells (0, 1)).revealing ∧
    ((runTrace ⟨cells0, []⟩
      [TEvent.launch 0 [(0, 0), (0, 1)], TEvent.launch 1 [(0, 1)],
       TEvent.complete 0 Outcome.cancelled,
       TEvent.complete 1 Outcome.success]).cells (0, 1)).revealing = 0 := by
  have h := reveal_counter_balanced
    [TEvent.launch 0 [(0, 0), (0, 1)], TEvent.launch 1 [(0, 1)],
     TEvent.complete 0 Outcome.cancelled, TEvent.complete 1 Outcome.success]
    cells0 (fun c => rfl) (by decide)
  exact ⟨h.2.1 (0, 1), h.2.2.1 (0, 1) (by decide)⟩

/-- The session's autoplay scheduling state: the `autoing: AtomicBool`
flag and the number of AutoSolveLoop instances currently running. -/
structure AutoState where
  autoing : Bool
  running : Nat
deriving DecidableEq, Repr

/-- Autoplay scheduling actions: a chain-start request (the
`if self.auto && !self.autoing.fetch_or(true, Relaxed)` check at the end
of `MinsweeperGame::left_click`, lines 180-188) and a loop reaching its
`End` phase (`autoing.store(false)` in `auto_task`, line 238, after which
the stream yields `None`). -/
inductive AAction where
  | request (auto : Bool)
  | loopEnd
deriving DecidableEq, Repr

/-- One scheduling step; the returned boolean reports whether a new
AutoSolveLoop `Start` phase was chained by this step. `fetch_or(true)`
sets the flag and yields its previous value; a loop is chained only when
`auto` holds and the previous value was `false`. -/
def autoStep (s : AutoState) : AAction → AutoState × Bool
  | AAction.request auto =>
      if auto then
        if s.autoing then ({ s with autoing := true }, false)
        else ({ autoing := true, running := s.running + 1 }, true)
      else (s, false)
  | AAction.loopEnd => ({ autoing := false, running := s.running - 1 }, false)

/-- Run a sequence of scheduling actions. -/
def runAuto (s : AutoState) (as : List AAction) : AutoState :=
  as.foldl (fun s a => (autoStep s a).1) s

/-- An action is admissible in a state when a `loopEnd` only comes from a
loop that is actually running. -/
def headOk (s : AutoState) : AAction → Bool
  | AAction.loopEnd => decide (0 < s.running)
  | _ => true

/-- Well-formedness of a sequence of scheduling actions. -/
def wfAuto (s : AutoState) : List AAction → Bool
  | [] => true
  | a :: as => headOk s a && wfAuto (autoStep s a).1 as

theorem runAuto_inv (as : List AAction) :
    ∀ s : AutoState, s.running = (if s.autoing then 1 else 0) →
      wfAuto s as = true →
      (runAuto s as).running = (if (runAuto s as).autoing then 1 else 0) := by
  induction as with
  | nil => intro s hinv _; exact hinv
  | cons a as ih =>
      intro s hinv hwf
      rw [wfAuto, Bool.and_eq_true_iff] at hwf
      obtain ⟨hhead, htail⟩ := hwf
      cases a with
      | request auto =>
          refine ih (autoStep s (AAction.request auto)).1 ?_ htail
          by_cases hauto : auto = true
          · subst hauto
            by_cases hflag : s.autoing = true
            · simp [autoStep, hflag, hinv]
            · rw [Bool.not_eq_true] at hflag
              rw [hflag, if_neg (by simp)] at hinv
              simp [autoStep, hflag, hinv]
          · rw [Bool.not_eq_true] at hauto
            subst hauto
            simpa [autoStep] using hinv
      | loopEnd =>
          refine ih (autoStep s AAction.loopEnd).1 ?_ htail
          have hrun : 0 < s.running := by simpa [headOk] using hhead
          simp only [autoStep]
          rw [hinv] at hrun ⊢
          split at hrun
          · simp_all
          · omega

/-- C5: from an idle session, along any well-formed sequence of
chain-start requests and loop terminations, at most one AutoSolveLoop is
ever running (the running count always matches the `autoing` flag); and a
chain-start request made while the flag is already set leaves the state
unchanged and chains no new `Start` phase — so exactly one `Start` occurs
per continuous running interval, the flag being set by the chaining step
and cleared by the loop's `End`. -/
theorem autoStep_request_noop (s : AutoState) (b : Bool)
    (h : s.autoing = true) : autoStep s (AAction.request b) = (s, false) := by
  cases s with
  | mk autoing running =>
      simp only at h
      subst h
      cases b <;> simp [autoStep]

theorem autoplay_mutual_exclusion (as : List AAction) (s : AutoState)
    (hinv : s.running = (if s.autoing then 1 else 0))
    (hwf : wfAuto s as = true) :
    ((runAuto s as).running = (if (runAuto s as).autoing then 1 else 0)) ∧
    (runAuto s as).running ≤ 1 ∧
    (∀ b, (runAuto s as).autoing = true →
      autoStep (runAuto s as) (AAction.request b) = ((runAuto s as), false)) := by
  have hmain := runAuto_inv as s hinv hwf
  refine ⟨hmain, ?_, fun b hflag => autoStep_request_noop _ b hflag⟩
  rw [hmain]
  split <;> omega

/-- Witness for C5 at a concrete input: start idle, chain a loop, request
twice more while it runs (both no-ops), end the loop, chain again — never
more than one loop running, and the no-op is explicit on the second
request. -/
theorem autoplay_mutual_exclusion_witness :
    (runAuto ⟨false, 0⟩
      [AAction.request true, AAction.request true, AAction.request false,
       AAction.loopEnd, AAction.request true]).running ≤ 1 ∧
    autoStep (runAuto ⟨false, 0⟩
      [AAction.request true, AAction.request true, AAction.request false,
       AAction.loopEnd, AAction.request true]) (AAction.request true) =
      ((runAuto ⟨false, 0⟩
        [AAction.request true, AAction.request true, AAction.request false,
         AAction.loopEnd, AAction.request true]), false) := by
  have h := autoplay_mutual_exclusion
    [AAction.request true, AAction.request true, AAction.request false,
     AAction.loopEnd, AAction.request true]
    ⟨false, 0⟩ (by decide) (by decide)
  exact ⟨h.2.1, h.2.2 true (by decide)⟩

/-- Observable events of one AutoSolveLoop run, in order. -/
inductive AutoEvent where
  | sleep
  | snapshotRead
  | insertToken (t : Nat)
  | removeToken (t : Nat)
  | clearFlag
deriving DecidableEq, Repr

/-- The solver's verdict for one step body: a move was found and applied,
no move was found, or the step's abortable was cancelled. -/
inductive SolveOutcome where
  | moved
  | noMove
  | aborted
deriving DecidableEq, Repr

/-- Events at the head of a `Start` (`prev = none`) or `SolveNext t`
(`prev = some t`) iteration of the `unfold` stream in
`MinsweeperGame::auto_task` (src/src/minsweeper/mod.rs lines 198-243):
a `SolveNext` first removes the previous step's token and waits the
50 ms step delay; a `Start` does neither. -/
def stepPre : Option Nat → List AutoEvent
  | none => []
  | some t => [AutoEvent.removeToken t, AutoEvent.sleep]

/-- Events of the final `End t` iteration: remove the last step's token
(no sleep — the delay is waited only before a `SolveNext`), clear the
running flag, and end the stream. -/
def endEvents (t : Nat) : List AutoEvent :=
  [AutoEvent.removeToken t, AutoEvent.clearFlag]

/-- The event trace of the `unfold` stream from a `Start`
(`prev = none`) or `SolveNext` (`prev = some t`) phase, with `c` the next
fresh token: each iteration registers a fresh token and reads a board
snapshot inside its abortable step body; a `moved` outcome loops to
`SolveNext`, while `noMove` and `aborted` go to the `End` phase. -/
def runSteps : Option Nat → Nat → List SolveOutcome → List AutoEvent
  | _, _, [] => []
  | prev, c, o :: os =>
      stepPre prev ++ [AutoEvent.insertToken c, AutoEvent.snapshotRead] ++
      (match o with
       | SolveOutcome.moved => runSteps (some c) (c + 1) os
       | _ => endEvents c)

theorem runSteps_no_move (k : Nat) :
    ∀ (prev : Option Nat) (c : Nat),
      (∃ pre, runSteps prev c (List.replicate k SolveOutcome.moved ++ [SolveOutcome.noMove])
        = pre ++ [AutoEvent.snapshotRead, AutoEvent.removeToken (c + k), AutoEvent.clearFlag]) ∧
      countL AutoEvent.snapshotRead
        (runSteps prev c (List.replicate k SolveOutcome.moved ++ [SolveOutcome.noMove]))
        = k + 1 ∧
      countL AutoEvent.sleep
        (runSteps prev c (List.replicate k SolveOutcome.moved ++ [SolveOutcome.noMove]))
        = k + (stepPre prev).length / 2 ∧
      countL AutoEvent.clearFlag
        (runSteps prev c (List.replicate k SolveOutcome.moved ++ [SolveOutcome.noMove]))
        = 1 := by
  induction k with
  | zero =>
      intro prev c
      match prev with
      | none =>
          refine ⟨⟨[AutoEvent.insertToken c], by simp [runSteps, stepPre, endEvents]⟩, ?_⟩
          simp [runSteps, stepPre, endEvents, countL]
      | some t =>
          refine ⟨⟨[AutoEvent.removeToken t, AutoEvent.sleep, AutoEvent.insertToken c],
            by simp [runSteps, stepPre, endEvents]⟩, ?_⟩
          simp [runSteps, stepPre, endEvents, countL]
  | succ k ih =>
      intro prev c
      have hexpand : runSteps prev c
          (List.replicate (k + 1) SolveOutcome.moved ++ [SolveOutcome.noMove]) =
          stepPre prev ++ [AutoEvent.insertToken c, AutoEvent.snapshotRead] ++
            runSteps (some c) (c + 1)
              (List.replicate k SolveOutcome.moved ++ [SolveOutcome.noMove]) := by
        rw [List.replicate_succ, List.cons_append, runSteps]
      obtain ⟨⟨pre, hpre⟩, hsnap, hsleep, hclear⟩ := ih (some c) (c + 1)
      constructor
      · refine ⟨stepPre prev ++ [AutoEvent.insertToken c, AutoEvent.snapshotRead] ++ pre, ?_⟩
        rw [hexpand, hpre]
        have harith : c + 1 + k = c + (k + 1) := by omega
        rw [harith]
        simp [List.append_assoc]
      · rw [hexpand]
        rw [countL_append, countL_append, countL_append, countL_append,
          countL_append, countL_append, hsnap, hsleep, hclear]
        match prev with
        | none =>
            simp [stepPre, countL]
            try omega
        | some t =>
            simp [stepPre, countL]
            try omega

/-- C6: when the solver returns no move at some step of an AutoSolveLoop
(after `k` successful steps), the loop's trace ends with exactly the
snapshot read whose solve returned no move, the removal of that step's
token, and the clearing of the running flag — no further step delay is
waited and no further board snapshot is read after that snapshot, the
flag is cleared exactly once, and in total the loop read `k + 1` snapshots
and waited `k` step delays. -/
theorem autoplay_termination (k : Nat) :
    (∃ pre, runSteps none 0 (List.replicate k SolveOutcome.moved ++ [SolveOutcome.noMove])
      = pre ++ [AutoEvent.snapshotRead, AutoEvent.removeToken k, AutoEvent.clearFlag]) ∧
    countL AutoEvent.snapshotRead
      (runSteps none 0 (List.replicate k SolveOutcome.moved ++ [SolveOutcome.noMove]))
      = k + 1 ∧
    countL AutoEvent.sleep
      (runSteps none 0 (List.replicate k SolveOutcome.moved ++ [SolveOutcome.noMove]))
      = k ∧
    countL AutoEvent.clearFlag
      (runSteps none 0 (List.replicate k SolveOutcome.moved ++ [SolveOutcome.noMove]))
      = 1 := by
  have h := runSteps_no_move k none 0
  obtain ⟨⟨pre, hpre⟩, hsnap, hsleep, hclear⟩ := h
  refine ⟨⟨pre, by simpa using hpre⟩, hsnap, ?_, hclear⟩
  simpa [stepPre] using hsleep

end MinsweeperClient
